import Mathlib

/-!
# Verification of the activity-board engine

Shallow embedding of the door-grid finite-state machine from
`activity_board.py` and the door rendering contract from `door.py`,
together with proofs of the behavioural properties the specification
states about them.

Conventions of the embedding:
* Python `int` arithmetic is modelled with `Int` where negative
  intermediate values occur (selection movement) and with `Nat`
  elsewhere.
* `random.choice` is modelled by an oracle `choose : Nat -> Nat`
  giving the chosen position at each draw (reduced modulo the list
  length, as any actual choice is some position in the list).
* Exceptions raised by the Python code are modelled with
  `Except String`.
-/

namespace ActivityBoard

/-- Player actions, from the `Action` enum in `activity_board.py`. -/
inductive Action where
  | UP
  | DOWN
  | LEFT
  | RIGHT
  | OPEN
  | RETURN
  | REVEAL
  | RESTART
  | QUIT
deriving DecidableEq, Repr

/-- States of the finite state machine in the main loop, from the
`State` enum in `activity_board.py`. -/
inductive GState where
  | START
  | SELECTING
  | IN_PROGRESS
  | ALL_REVEALED
  | GAME_OVER
deriving DecidableEq, Repr

/-- A single door on the activity board, from the `Door` class in
`door.py`.  Geometry and style fields (height, width, props) do not
affect the verified properties and are omitted; the behavioural fields
are kept exactly. -/
structure Door where
  index : Nat
  activity : String
  is_selected : Bool
  is_open : Bool
  is_revealed : Bool
  is_hidden : Bool
  is_updated : Bool
  pct_open : Nat
deriving DecidableEq, Repr

/-- `Door.__init__`: a fresh door starts not selected, not open, not
revealed, needing a draw (`is_updated = True`) and fully closed
(`pct_open = 0`); hiddenness is the `is_hidden` argument. -/
def mkDoor (index : Nat) (activity : String) (is_hidden : Bool) : Door :=
  { index := index
    activity := activity
    is_selected := false
    is_open := false
    is_revealed := false
    is_hidden := is_hidden
    is_updated := true
    pct_open := 0 }

/-- Python `range(start, stop, step)` for a positive step: the list of
`start + k*step` strictly below `stop`. -/
def pyRange (start stop step : Nat) : List Nat :=
  (List.range ((stop - start + step - 1) / step)).map (fun k => start + k * step)

/-- `ActivityBoard._get_new_selection`: new door index from the
currently selected door index and a movement action.  Mirrors the
source line by line; Python ints are `Int` here because the deltas can
go to -1 before clamping. -/
def get_new_selection (doors_horiz doors_vert : Nat) (old_index : Nat)
    (action : Action) : Int :=
  let old_index_h : Int := (old_index : Int) % (doors_horiz : Int)
  let old_index_v : Int := (old_index : Int) / (doors_horiz : Int)
  let new_index_h : Int := old_index_h
  let new_index_v : Int := old_index_v
  let new_index_v : Int :=
    if action = Action.UP then old_index_v - 1 else new_index_v
  let new_index_v : Int :=
    if action = Action.DOWN then old_index_v + 1 else new_index_v
  let new_index_h : Int :=
    if action = Action.LEFT then old_index_h - 1 else new_index_h
  let new_index_h : Int :=
    if action = Action.RIGHT then old_index_h + 1 else new_index_h
  let new_index_h : Int := if new_index_h < 0 then old_index_h else new_index_h
  let new_index_h : Int :=
    if new_index_h > (doors_horiz : Int) - 1 then old_index_h else new_index_h
  let new_index_v : Int := if new_index_v < 0 then 0 else new_index_v
  let new_index_v : Int :=
    if new_index_v > (doors_vert : Int) - 1 then old_index_v else new_index_v
  new_index_v * (doors_horiz : Int) + new_index_h

example : get_new_selection 3 2 0 Action.UP = 0 := by decide
example : get_new_selection 3 2 0 Action.DOWN = 3 := by decide
example : get_new_selection 3 2 4 Action.LEFT = 3 := by decide
example : get_new_selection 3 2 5 Action.RIGHT = 5 := by decide
example : get_new_selection 3 2 4 Action.UP = 1 := by decide
example : get_new_selection 3 2 5 Action.DOWN = 5 := by decide

/-! ## Rendering (`door.py`) -/

/-- The colour the activity text is rendered in during the endgame
reveal, from `Door.get_door_surface`. -/
inductive RevealColor where
  | activityColor
  | unusedColor
deriving DecidableEq, Repr

/-- The visual variant a door surface is built as, abstracting the
pygame drawing in `Door.get_door_surface` while keeping its branch
structure and the data each branch draws from. -/
inductive DoorRender where
  | hiddenBlank
  | openedCross (selected : Bool)
  | revealedActivity (color : RevealColor)
  | closedDoor (selected : Bool) (pct : Nat)
deriving DecidableEq, Repr

/-- `Door.get_door_surface`: which variant is rendered, following the
if/elif chain of the source.  Priority: hidden, then open-and-not-
revealed (cross), then revealed (activity text in the standard colour
when the door was opened, in the unused colour otherwise), else the
default closed door with the partial-open window driven by
`pct_open`. -/
def get_door_surface (d : Door) : DoorRender :=
  if d.is_hidden then
    DoorRender.hiddenBlank
  else if d.is_open && !d.is_revealed then
    DoorRender.openedCross d.is_selected
  else if d.is_revealed then
    DoorRender.revealedActivity
      (if d.is_open then RevealColor.activityColor else RevealColor.unusedColor)
  else
    DoorRender.closedDoor d.is_selected d.pct_open

/-! ## Redraw bookkeeping (`activity_board.py`) -/

/-- `ActivityBoard._draw_updated_doors`: blit every door whose
`is_updated` flag is set and clear that flag.  Blitting does not change
door state, so on the door list the pass only clears the flags of the
doors it drew. -/
def draw_updated_doors (doors : List Door) : List Door :=
  doors.map (fun d => if d.is_updated then { d with is_updated := false } else d)

/-- `ActivityBoard._draw_all_doors`: blit every door unconditionally
and clear every `is_updated` flag. -/
def draw_all_doors (doors : List Door) : List Door :=
  doors.map (fun d => { d with is_updated := false })

/-! ## Animations (`activity_board.py`) -/

/-- The successive values assigned to `pct_open` by
`ActivityBoard._animate_open`, i.e. Python `range(2, 102, 2)`. -/
def animate_open_steps : List Nat := pyRange 2 102 2

/-- One frame of `_animate_open`: the assignment made to the door's
`pct_open` followed by the `_draw_door` call, recording the value the
door is drawn with. -/
inductive AnimEvent where
  | assign (pct : Nat)
  | drawFrame (pct : Nat)
deriving DecidableEq, Repr

/-- The event trace of `ActivityBoard._animate_open`: for each `i` in
`range(2, 102, 2)`, set `pct_open = i` then draw the door. -/
def animate_open_events : List AnimEvent :=
  animate_open_steps.flatMap (fun i => [AnimEvent.assign i, AnimEvent.drawFrame i])

/-- Effect of `ActivityBoard._animate_open` on the door itself: the
loop leaves `pct_open` at the last assigned step value. -/
def animate_open (d : Door) : Door :=
  animate_open_steps.foldl (fun d i => { d with pct_open := i }) d

/-- `ActivityBoard._animate_open_all`: mark already-open doors
revealed and redraw them; sweep `pct_open` over `range(5, 105, 5)` on
every not-open door, redrawing after each tick; finally mark every
door revealed and redraw. -/
def animate_open_all (doors : List Door) : List Door :=
  let doors := doors.map (fun d =>
    if d.is_open then { d with is_revealed := true, is_updated := true } else d)
  let doors := draw_updated_doors doors
  let doors := (pyRange 5 105 5).foldl (fun doors i =>
    draw_updated_doors (doors.map (fun d =>
      if !d.is_open then { d with pct_open := i, is_updated := true } else d))) doors
  let doors := doors.map (fun d => { d with is_revealed := true, is_updated := true })
  draw_updated_doors doors

/-! ## Construction (`ActivityBoard.__init__` / `_build_door_list`)

`random.choice(activities)` is modelled by an oracle `choose : Nat -> Nat`
consulted at each draw; the chosen position is reduced modulo the list
length (any concrete run of `random.choice` picks some such position).
`random.choice` on an empty list raises `IndexError: Cannot choose from
an empty sequence`; `activities.remove(activity)` removes the first
occurrence of the chosen value, which is `List.erase`. -/

/-- The loop body of `ActivityBoard._build_door_list`: build the doors
with indices `i, i+1, ...` (`remaining` of them), drawing activities
without replacement from `activities`. -/
def build_door_aux (choose : Nat → Nat) (doors_hidden : Bool) :
    Nat → Nat → List String → Except String (List Door)
  | _, 0, _ => Except.ok []
  | i, remaining + 1, activities =>
    if activities.isEmpty then
      Except.error "Cannot choose from an empty sequence"
    else
      let activity := activities.getD (choose i % activities.length) ""
      let rest := activities.erase activity
      match build_door_aux choose doors_hidden (i + 1) remaining rest with
      | Except.ok doors => Except.ok (mkDoor i activity doors_hidden :: doors)
      | Except.error e => Except.error e

/-- `ActivityBoard._build_door_list`: one door per grid cell,
`num_doors = doors_horiz * doors_vert` in total. -/
def build_door_list (choose : Nat → Nat) (doors_horiz doors_vert : Nat)
    (activities : List String) (doors_hidden : Bool) :
    Except String (List Door) :=
  build_door_aux choose doors_hidden 0 (doors_horiz * doors_vert) activities

/-- `ActivityBoard.__init__`: validate that the surface dimensions are
integer multiples of the grid dimensions, then build the door list.
The result is the constructed door list, or the error the constructor
raises. -/
def board_init (choose : Nat → Nat) (surface_width surface_height : Nat)
    (doors_horiz doors_vert : Nat) (activities : List String)
    (start_hidden : Bool) : Except String (List Door) :=
  if surface_width % doors_horiz ≠ 0 then
    Except.error "surface width must be an integer multiple of doors_horiz"
  else if surface_height % doors_vert ≠ 0 then
    Except.error "surface height must be an integer multiple of doors_vert"
  else
    build_door_list choose doors_horiz doors_vert activities start_hidden

/-! ## The run loop (`ActivityBoard.run`) -/

/-- The mutable state of one `run()` invocation: the door list, the
index of `selected_door` within it, the machine state, and the
`play_again` local (unset until a RESTART or QUIT branch assigns it). -/
structure BoardState where
  doors : List Door
  selected : Nat
  state : GState
  play_again : Option Bool
deriving Repr

/-- Fallback door for list lookups; the run loop never actually reads
out of bounds (claim C10). -/
def dfltDoor : Door := mkDoor 0 "" false

/-- The START branch of `run()`: draw the board (intro animation when
starting hidden un-hides every door one by one; both paths end with no
door updated), select door 0, redraw, enter SELECTING. -/
def start_step (start_hidden : Bool) (b : BoardState) : BoardState :=
  let doors :=
    if start_hidden then
      draw_updated_doors (draw_all_doors b.doors |>.map
        (fun d => { d with is_hidden := false, is_updated := true }))
    else
      draw_all_doors b.doors
  let doors := doors.set 0
    ({ doors.getD 0 dfltDoor with is_selected := true, is_updated := true })
  let doors := draw_updated_doors doors
  { b with doors := doors, selected := 0, state := GState.SELECTING }

/-- Dispatch of one translated action in the SELECTING branch of
`run()`. -/
def selecting_step (doors_horiz doors_vert : Nat) (b : BoardState)
    (action : Action) : BoardState :=
  match action with
  | Action.OPEN =>
    let selected_door := b.doors.getD b.selected dfltDoor
    if !selected_door.is_open then
      let doors := b.doors.set b.selected (animate_open selected_door)
      let doors := doors.set b.selected
        ({ doors.getD b.selected dfltDoor with is_open := true })
      { b with doors := doors, state := GState.IN_PROGRESS }
    else
      b
  | Action.RESTART =>
    { b with state := GState.GAME_OVER, play_again := some true }
  | Action.QUIT =>
    { b with state := GState.GAME_OVER, play_again := some false }
  | Action.REVEAL =>
    { b with doors := animate_open_all b.doors, state := GState.ALL_REVEALED }
  | Action.UP | Action.DOWN | Action.LEFT | Action.RIGHT =>
    let selected_door := b.doors.getD b.selected dfltDoor
    let new_index :=
      (get_new_selection doors_horiz doors_vert selected_door.index action).toNat
    if new_index ≠ selected_door.index then
      let doors := b.doors.set b.selected
        ({ selected_door with is_selected := false, is_updated := true })
      let doors := doors.set new_index
        ({ doors.getD new_index dfltDoor with is_selected := true, is_updated := true })
      let doors := draw_updated_doors doors
      { b with doors := doors, selected := new_index }
    else
      b
  | Action.RETURN => b

/-- One step of the event-driven part of `run()`: dispatch one
translated action in the current machine state. -/
def step (doors_horiz doors_vert : Nat) (b : BoardState) (action : Action) :
    BoardState :=
  match b.state with
  | GState.SELECTING => selecting_step doors_horiz doors_vert b action
  | GState.IN_PROGRESS =>
    match action with
    | Action.RETURN =>
      { b with doors := draw_all_doors b.doors, state := GState.SELECTING }
    | _ => b
  | GState.ALL_REVEALED =>
    match action with
    | Action.RESTART =>
      { b with state := GState.GAME_OVER, play_again := some true }
    | Action.QUIT =>
      { b with state := GState.GAME_OVER, play_again := some false }
    | _ => b
  | _ => b

/-- The `while` loop of `run()` applied to a stream of translated
actions: stepping stops once GAME_OVER is reached. -/
def run_actions (doors_horiz doors_vert : Nat) (b : BoardState) :
    List Action → BoardState
  | [] => b
  | a :: rest =>
    if b.state = GState.GAME_OVER then b
    else run_actions doors_horiz doors_vert (step doors_horiz doors_vert b a) rest

/-- The machine states visited while running a stream of actions,
starting state included. -/
def run_trace (doors_horiz doors_vert : Nat) (b : BoardState) :
    List Action → List BoardState
  | [] => [b]
  | a :: rest =>
    if b.state = GState.GAME_OVER then [b]
    else b :: run_trace doors_horiz doors_vert (step doors_horiz doors_vert b a) rest

/-- A full `run()` call: start in START, execute the START branch,
then consume the action stream; the return value is `play_again`. -/
def run (doors_horiz doors_vert : Nat) (doors : List Door)
    (start_hidden : Bool) (actions : List Action) : BoardState :=
  run_actions doors_horiz doors_vert
    (start_step start_hidden
      { doors := doors, selected := 0, state := GState.START, play_again := none })
    actions

/-! ## Selection-movement arithmetic -/

lemma cast_div (idx dh : Nat) : ((idx / dh : Nat) : Int) = (idx : Int) / (dh : Int) :=
  Int.ofNat_ediv idx dh

lemma cast_mod (idx dh : Nat) : ((idx % dh : Nat) : Int) = (idx : Int) % (dh : Int) :=
  Int.ofNat_emod idx dh

lemma sel_up_spec (dh dv idx : Nat) (hdh : 1 ≤ dh) (hdv : 1 ≤ dv)
    (hidx : idx < dh * dv) :
    get_new_selection dh dv idx Action.UP =
      ((if idx / dh = 0 then idx else (idx / dh - 1) * dh + idx % dh : Nat) : Int) := by
  have hq := cast_div idx dh
  have hr := cast_mod idx dh
  have hdm : dh * (idx / dh) + idx % dh = idx := Nat.div_add_mod idx dh
  have hrlt : idx % dh < dh := Nat.mod_lt _ hdh
  have hqlt : idx / dh < dv := Nat.div_lt_of_lt_mul hidx
  simp only [get_new_selection, reduceCtorEq, reduceIte, if_true, if_false, ite_self]
  rw [← hq, ← hr]
  generalize hq2 : idx / dh = q at *
  generalize hr2 : idx % dh = r at *
  rcases Nat.eq_zero_or_pos q with h0 | h0
  · subst h0
    push_cast
    norm_num
    omega
  · rw [if_neg (show ¬q = 0 by omega)]
    rw [if_neg (show ¬((q : Int) - 1 < 0) by omega)]
    rw [if_neg (show ¬((q : Int) - 1 > (dv : Int) - 1) by omega)]
    push_cast [Nat.cast_sub h0]
    ring

lemma sel_down_spec (dh dv idx : Nat) (hdh : 1 ≤ dh) (hdv : 1 ≤ dv)
    (hidx : idx < dh * dv) :
    get_new_selection dh dv idx Action.DOWN =
      ((if idx / dh = dv - 1 then idx
        else (idx / dh + 1) * dh + idx % dh : Nat) : Int) := by
  have hq := cast_div idx dh
  have hr := cast_mod idx dh
  have hdm : dh * (idx / dh) + idx % dh = idx := Nat.div_add_mod idx dh
  have hrlt : idx % dh < dh := Nat.mod_lt _ hdh
  have hqlt : idx / dh < dv := Nat.div_lt_of_lt_mul hidx
  simp only [get_new_selection, reduceCtorEq, reduceIte, if_true, if_false, ite_self]
  rw [← hq, ← hr]
  generalize hq2 : idx / dh = q at *
  generalize hr2 : idx % dh = r at *
  rw [if_neg (show ¬((q : Int) + 1 < 0) by omega)]
  by_cases hlast : q = dv - 1
  · rw [if_pos (show ((q : Int) + 1 > (dv : Int) - 1) by omega)]
    rw [if_pos hlast]
    push_cast [← hdm]
    ring
  · rw [if_neg (show ¬((q : Int) + 1 > (dv : Int) - 1) by omega)]
    rw [if_neg hlast]
    push_cast
    ring

lemma sel_left_spec (dh dv idx : Nat) (hdh : 1 ≤ dh) (hdv : 1 ≤ dv)
    (hidx : idx < dh * dv) :
    get_new_selection dh dv idx Action.LEFT =
      ((if idx % dh = 0 then idx
        else (idx / dh) * dh + (idx % dh - 1) : Nat) : Int) := by
  have hq := cast_div idx dh
  have hr := cast_mod idx dh
  have hdm : dh * (idx / dh) + idx % dh = idx := Nat.div_add_mod idx dh
  have hrlt : idx % dh < dh := Nat.mod_lt _ hdh
  have hqlt : idx / dh < dv := Nat.div_lt_of_lt_mul hidx
  simp only [get_new_selection, reduceCtorEq, reduceIte, if_true, if_false, ite_self]
  rw [← hq, ← hr]
  generalize hq2 : idx / dh = q at *
  generalize hr2 : idx % dh = r at *
  rw [if_neg (show ¬((q : Int) < 0) by omega)]
  rw [if_neg (show ¬((q : Int) > (dv : Int) - 1) by omega)]
  rcases Nat.eq_zero_or_pos r with h0 | h0
  · subst h0
    push_cast
    norm_num
    push_cast [← hdm]
    ring
  · rw [if_neg (show ¬((r : Int) - 1 < 0) by omega)]
    rw [if_neg (show ¬((r : Int) - 1 > (dh : Int) - 1) by omega)]
    rw [if_neg (show ¬r = 0 by omega)]
    push_cast [Nat.cast_sub h0, ← hdm]
    ring

lemma sel_right_spec (dh dv idx : Nat) (hdh : 1 ≤ dh) (hdv : 1 ≤ dv)
    (hidx : idx < dh * dv) :
    get_new_selection dh dv idx Action.RIGHT =
      ((if idx % dh = dh - 1 then idx
        else (idx / dh) * dh + (idx % dh + 1) : Nat) : Int) := by
  have hq := cast_div idx dh
  have hr := cast_mod idx dh
  have hdm : dh * (idx / dh) + idx % dh = idx := Nat.div_add_mod idx dh
  have hrlt : idx % dh < dh := Nat.mod_lt _ hdh
  have hqlt : idx / dh < dv := Nat.div_lt_of_lt_mul hidx
  simp only [get_new_selection, reduceCtorEq, reduceIte, if_true, if_false, ite_self]
  rw [← hq, ← hr]
  generalize hq2 : idx / dh = q at *
  generalize hr2 : idx % dh = r at *
  rw [if_neg (show ¬((q : Int) < 0) by omega)]
  rw [if_neg (show ¬((q : Int) > (dv : Int) - 1) by omega)]
  rw [if_neg (show ¬((r : Int) + 1 < 0) by omega)]
  by_cases hlast : r = dh - 1
  · rw [if_pos (show ((r : Int) + 1 > (dh : Int) - 1) by omega)]
    rw [if_pos hlast]
    push_cast [← hdm]
    ring
  · rw [if_neg (show ¬((r : Int) + 1 > (dh : Int) - 1) by omega)]
    rw [if_neg hlast]
    push_cast [← hdm]
    ring

lemma sel_stay_spec (dh dv idx : Nat) (action : Action) (hdh : 1 ≤ dh)
    (hdv : 1 ≤ dv) (hidx : idx < dh * dv)
    (h1 : action ≠ Action.UP) (h2 : action ≠ Action.DOWN)
    (h3 : action ≠ Action.LEFT) (h4 : action ≠ Action.RIGHT) :
    get_new_selection dh dv idx action = (idx : Int) := by
  have hq := cast_div idx dh
  have hr := cast_mod idx dh
  have hdm : dh * (idx / dh) + idx % dh = idx := Nat.div_add_mod idx dh
  have hrlt : idx % dh < dh := Nat.mod_lt _ hdh
  have hqlt : idx / dh < dv := Nat.div_lt_of_lt_mul hidx
  simp only [get_new_selection, if_neg h1, if_neg h2, if_neg h3, if_neg h4, ite_self]
  rw [← hq, ← hr]
  generalize hq2 : idx / dh = q at *
  generalize hr2 : idx % dh = r at *
  rw [if_neg (show ¬((q : Int) < 0) by omega)]
  rw [if_neg (show ¬((q : Int) > (dv : Int) - 1) by omega)]
  push_cast [← hdm]
  ring

lemma rowcol_lt {q r dh dv : Nat} (hq : q < dv) (hr : r < dh) :
    q * dh + r < dh * dv := by
  calc q * dh + r < q * dh + dh := Nat.add_lt_add_left hr _
    _ = (q + 1) * dh := by ring
    _ ≤ dv * dh := Nat.mul_le_mul_right dh hq
    _ = dh * dv := Nat.mul_comm dv dh

/-- C1: for every board with `doors_horiz ≥ 1` and `doors_vert ≥ 1` and
every selected door index in `[0, num_doors)`, each directional action
either leaves the index unchanged when the door lies on the grid
boundary in the direction of movement, or moves exactly one row
(Up/Down) or one column (Left/Right), keeping the other coordinate and
recombining as `row * doors_horiz + col`. -/
theorem C1_grid_movement (dh dv idx : Nat) (hdh : 1 ≤ dh) (hdv : 1 ≤ dv)
    (hidx : idx < dh * dv) :
    (get_new_selection dh dv idx Action.UP =
      ((if idx / dh = 0 then idx
        else (idx / dh - 1) * dh + idx % dh : Nat) : Int)) ∧
    (get_new_selection dh dv idx Action.DOWN =
      ((if idx / dh = dv - 1 then idx
        else (idx / dh + 1) * dh + idx % dh : Nat) : Int)) ∧
    (get_new_selection dh dv idx Action.LEFT =
      ((if idx % dh = 0 then idx
        else (idx / dh) * dh + (idx % dh - 1) : Nat) : Int)) ∧
    (get_new_selection dh dv idx Action.RIGHT =
      ((if idx % dh = dh - 1 then idx
        else (idx / dh) * dh + (idx % dh + 1) : Nat) : Int)) :=
  ⟨sel_up_spec dh dv idx hdh hdv hidx, sel_down_spec dh dv idx hdh hdv hidx,
   sel_left_spec dh dv idx hdh hdv hidx, sel_right_spec dh dv idx hdh hdv hidx⟩

/-- Witness for C1 on the 3×2 grid at door 4 (row 1, col 1). -/
theorem C1_grid_movement_witness :
    (1 ≤ 3 ∧ 1 ≤ 2 ∧ 4 < 3 * 2) ∧
    ((get_new_selection 3 2 4 Action.UP =
      ((if 4 / 3 = 0 then 4 else (4 / 3 - 1) * 3 + 4 % 3 : Nat) : Int)) ∧
    (get_new_selection 3 2 4 Action.DOWN =
      ((if 4 / 3 = 2 - 1 then 4 else (4 / 3 + 1) * 3 + 4 % 3 : Nat) : Int)) ∧
    (get_new_selection 3 2 4 Action.LEFT =
      ((if 4 % 3 = 0 then 4 else (4 / 3) * 3 + (4 % 3 - 1) : Nat) : Int)) ∧
    (get_new_selection 3 2 4 Action.RIGHT =
      ((if 4 % 3 = 3 - 1 then 4 else (4 / 3) * 3 + (4 % 3 + 1) : Nat) : Int))) :=
  ⟨⟨by decide, by decide, by decide⟩,
   C1_grid_movement 3 2 4 (by decide) (by decide) (by decide)⟩

lemma get_new_selection_bounded (dh dv idx : Nat) (action : Action)
    (hdh : 1 ≤ dh) (hdv : 1 ≤ dv) (hidx : idx < dh * dv) :
    ∃ n : Nat, get_new_selection dh dv idx action = (n : Int) ∧
      n < dh * dv := by
  have hrlt : idx % dh < dh := Nat.mod_lt _ hdh
  have hqlt : idx / dh < dv := Nat.div_lt_of_lt_mul hidx
  cases action with
    | UP =>
      refine ⟨_, sel_up_spec dh dv idx hdh hdv hidx, ?_⟩
      split_ifs with h
      · exact hidx
      · exact rowcol_lt (by omega) hrlt
    | DOWN =>
      refine ⟨_, sel_down_spec dh dv idx hdh hdv hidx, ?_⟩
      split_ifs with h
      · exact hidx
      · exact rowcol_lt (by omega) hrlt
    | LEFT =>
      refine ⟨_, sel_left_spec dh dv idx hdh hdv hidx, ?_⟩
      split_ifs with h
      · exact hidx
      · exact rowcol_lt hqlt (by omega)
    | RIGHT =>
      refine ⟨_, sel_right_spec dh dv idx hdh hdv hidx, ?_⟩
      split_ifs with h
      · exact hidx
      · exact rowcol_lt hqlt (by omega)
    | OPEN =>
      exact ⟨idx, sel_stay_spec dh dv idx _ hdh hdv hidx
        (by simp) (by simp) (by simp) (by simp), hidx⟩
    | RETURN =>
      exact ⟨idx, sel_stay_spec dh dv idx _ hdh hdv hidx
        (by simp) (by simp) (by simp) (by simp), hidx⟩
    | REVEAL =>
      exact ⟨idx, sel_stay_spec dh dv idx _ hdh hdv hidx
        (by simp) (by simp) (by simp) (by simp), hidx⟩
    | RESTART =>
      exact ⟨idx, sel_stay_spec dh dv idx _ hdh hdv hidx
        (by simp) (by simp) (by simp) (by simp), hidx⟩
    | QUIT =>
      exact ⟨idx, sel_stay_spec dh dv idx _ hdh hdv hidx
        (by simp) (by simp) (by simp) (by simp), hidx⟩
/-- C10: for every board with `doors_horiz ≥ 1` and `doors_vert ≥ 1`,
every input index in `[0, num_doors)` and every action,
`_get_new_selection` returns an index in `[0, num_doors)`, so the list
access `self._doors[new_index]` in the directional branch of the run
loop is in bounds whenever the door list has `num_doors` entries. -/
theorem C10_selection_in_bounds (dh dv idx : Nat) (action : Action)
    (hdh : 1 ≤ dh) (hdv : 1 ≤ dv) (hidx : idx < dh * dv) :
    0 ≤ get_new_selection dh dv idx action ∧
    get_new_selection dh dv idx action < ((dh * dv : Nat) : Int) ∧
    ∀ doors : List Door, doors.length = dh * dv →
      (get_new_selection dh dv idx action).toNat < doors.length := by
  obtain ⟨n, hn, hnlt⟩ := get_new_selection_bounded dh dv idx action hdh hdv hidx
  rw [hn]
  refine ⟨by exact_mod_cast Nat.zero_le n, by exact_mod_cast hnlt, ?_⟩
  intro doors hlen
  rw [hlen]
  simpa using hnlt

/-- Witness for C10 on the 3×2 grid at door 5 moving Down. -/
theorem C10_selection_in_bounds_witness :
    (1 ≤ 3 ∧ 1 ≤ 2 ∧ 5 < 3 * 2) ∧
    (0 ≤ get_new_selection 3 2 5 Action.DOWN ∧
    get_new_selection 3 2 5 Action.DOWN < ((3 * 2 : Nat) : Int) ∧
    ∀ doors : List Door, doors.length = 3 * 2 →
      (get_new_selection 3 2 5 Action.DOWN).toNat < doors.length) :=
  ⟨⟨by decide, by decide, by decide⟩,
   C10_selection_in_bounds 3 2 5 Action.DOWN (by decide) (by decide) (by decide)⟩

/-! ## List access helpers -/

lemma getD_set_eq (l : List Door) (i : Nat) (x : Door) (h : i < l.length) :
    (l.set i x).getD i dfltDoor = x := by
  simp [List.getD, List.getElem?_set_self, h]

lemma getD_set_ne (l : List Door) (i j : Nat) (x : Door) (h : i ≠ j) :
    (l.set i x).getD j dfltDoor = l.getD j dfltDoor := by
  simp [List.getD, List.getElem?_set_ne h]

lemma getD_map_door (l : List Door) (f : Door → Door) (i : Nat)
    (h : i < l.length) :
    (l.map f).getD i dfltDoor = f (l.getD i dfltDoor) := by
  simp [List.getD, List.getElem?_map, List.getElem?_eq_getElem h]

lemma getD_mem {α : Type} (l : List α) (k : Nat) (dflt : α) (h : k < l.length) :
    l.getD k dflt ∈ l := by
  rw [List.getD_eq_getElem l dflt h]
  exact List.getElem_mem h

/-! ## Redraw passes clear the dirty flags -/

/-- C5: after either redraw pass — the incremental
`_draw_updated_doors` and the full `_draw_all_doors` — no door in the
resulting list has `is_updated = true`, whatever the starting
configuration of dirty flags. -/
theorem C5_redraw_clears_dirty (doors : List Door) :
    (∀ d ∈ draw_updated_doors doors, d.is_updated = false) ∧
    (∀ d ∈ draw_all_doors doors, d.is_updated = false) := by
  constructor
  · intro d hd
    simp only [draw_updated_doors, List.mem_map] at hd
    obtain ⟨e, _, he⟩ := hd
    subst he
    by_cases h : e.is_updated <;> simp [h]
  · intro d hd
    simp only [draw_all_doors, List.mem_map] at hd
    obtain ⟨e, _, he⟩ := hd
    subst he
    rfl

/-- Witness for C5: the door produced by an incremental redraw of a
one-door board with a dirty door is clean. -/
theorem C5_redraw_clears_dirty_witness :
    ({ mkDoor 0 "A" false with is_updated := false } : Door).is_updated = false :=
  (C5_redraw_clears_dirty [mkDoor 0 "A" false]).1
    { mkDoor 0 "A" false with is_updated := false } (by decide)

/-! ## The single-door opening animation -/

/-- C6: during one run of `_animate_open`, the values assigned to
`pct_open` are strictly increasing in fixed steps of 2, start above
the door's initial value 0, and end at exactly 100, assigned once and
not skipped; the door is drawn again after the final assignment, and
the loop leaves the door's `pct_open` at 100. -/
theorem C6_open_animation :
    (∀ (i : Nat) (a : String) (h : Bool), (mkDoor i a h).pct_open = 0) ∧
    animate_open_steps.Chain' (fun x y => y = x + 2) ∧
    animate_open_steps.Chain' (· < ·) ∧
    animate_open_steps.head? = some 2 ∧
    animate_open_steps.getLast? = some 100 ∧
    animate_open_steps.count 100 = 1 ∧
    animate_open_events.getLast? = some (AnimEvent.drawFrame 100) ∧
    animate_open_events.dropLast.getLast? = some (AnimEvent.assign 100) ∧
    ∀ d : Door, (animate_open d).pct_open = 100 := by
  have hchain : ∀ r : Nat → Nat → Prop, (∀ m : Nat, r (2 + m * 2) (2 + (m + 1) * 2)) →
      animate_open_steps.Chain' r := by
    intro r hr
    rw [animate_open_steps, pyRange, show (102 - 2 + 2 - 1) / 2 = 49 + 1 from rfl,
      List.chain'_map, List.chain'_range_succ]
    intro m _
    exact hr m
  refine ⟨fun i a h => rfl, hchain _ (fun m => by ring), hchain _ (fun m => by omega),
    by decide, by decide, by decide, by decide, by decide, fun d => rfl⟩

/-! ## The reveal-all animation -/

/-- Per-door form of `_draw_updated_doors`. -/
def clear1 (d : Door) : Door :=
  if d.is_updated then { d with is_updated := false } else d

lemma draw_updated_doors_map (ds : List Door) :
    draw_updated_doors ds = ds.map clear1 := rfl

/-- Net per-door effect of `_animate_open_all`: every door ends up
revealed with a clean dirty flag; a door that was not open is swept to
`pct_open = 100`, a door that was open keeps its `pct_open`. -/
def reveal_door (d : Door) : Door :=
  if d.is_open then { d with is_revealed := true, is_updated := false }
  else { d with is_revealed := true, is_updated := false, pct_open := 100 }

lemma foldl_map_comm (h : Nat → Door → Door) (l : List Nat) :
    ∀ ds : List Door,
      l.foldl (fun ds i => ds.map (h i)) ds =
        ds.map (fun d => l.foldl (fun d i => h i d) d) := by
  induction l with
  | nil => intro ds; simp
  | cons a t ih =>
    intro ds
    simp only [List.foldl_cons, ih, List.map_map]
    rfl

lemma animate_open_all_eq (doors : List Door) :
    animate_open_all doors = doors.map reveal_door := by
  simp only [animate_open_all, draw_updated_doors_map, List.map_map]
  rw [foldl_map_comm (fun i => clear1 ∘ fun d =>
    if !d.is_open then { d with pct_open := i, is_updated := true } else d)]
  rw [show pyRange 5 105 5 =
    [5, 10, 15, 20, 25, 30, 35, 40, 45, 50, 55, 60, 65, 70, 75, 80, 85, 90, 95, 100]
    from by decide]
  simp only [List.map_map]
  apply List.map_congr_left
  intro d _
  by_cases ho : d.is_open <;> by_cases hu : d.is_updated <;>
    simp [Function.comp, clear1, reveal_door, ho, hu]

/-- C4: after `_animate_open_all` completes on a board whose doors are
not hidden, every door is revealed, and rendering any resulting door
produces the activity text in the standard activity colour when the
door had been opened before the reveal and in the distinct unused
colour otherwise. -/
theorem C4_reveal_all_renders (doors : List Door)
    (hnh : ∀ d ∈ doors, d.is_hidden = false) :
    (∀ d ∈ animate_open_all doors, d.is_revealed = true) ∧
    (∀ d ∈ animate_open_all doors,
      get_door_surface d = DoorRender.revealedActivity
        (if d.is_open then RevealColor.activityColor
         else RevealColor.unusedColor)) := by
  rw [animate_open_all_eq]
  constructor
  · intro d hd
    obtain ⟨e, _, rfl⟩ := List.mem_map.mp hd
    by_cases ho : e.is_open <;> simp [reveal_door, ho]
  · intro d hd
    obtain ⟨e, he, rfl⟩ := List.mem_map.mp hd
    by_cases ho : e.is_open <;>
      simp [reveal_door, get_door_surface, ho, hnh e he]

/-- The 3×2 sample grid of the specification: door 2 was opened during
the game, the others were not. -/
def sample_grid : List Door :=
  [mkDoor 0 "a" false, mkDoor 1 "b" false,
   { mkDoor 2 "c" false with is_open := true },
   mkDoor 3 "d" false, mkDoor 4 "e" false, mkDoor 5 "f" false]

/-- Witness for C4: on the 3×2 sample grid with only door 2 opened,
every revealed door renders as activity text, door 2 in the standard
colour and the rest in the unused colour. -/
theorem C4_reveal_all_renders_witness :
    (∀ d ∈ sample_grid, d.is_hidden = false) ∧
    ((∀ d ∈ animate_open_all sample_grid, d.is_revealed = true) ∧
     (∀ d ∈ animate_open_all sample_grid,
       get_door_surface d = DoorRender.revealedActivity
         (if d.is_open then RevealColor.activityColor
          else RevealColor.unusedColor))) :=
  ⟨by decide, C4_reveal_all_renders sample_grid (by decide)⟩

example :
    (animate_open_all sample_grid).map get_door_surface =
      [DoorRender.revealedActivity RevealColor.unusedColor,
       DoorRender.revealedActivity RevealColor.unusedColor,
       DoorRender.revealedActivity RevealColor.activityColor,
       DoorRender.revealedActivity RevealColor.unusedColor,
       DoorRender.revealedActivity RevealColor.unusedColor,
       DoorRender.revealedActivity RevealColor.unusedColor] := by decide

/-! ## Construction: failure and success -/

lemma build_aux_error (choose : Nat → Nat) (hid : Bool) :
    ∀ (rem i : Nat) (activities : List String), activities.length < rem →
      ∃ msg, build_door_aux choose hid i rem activities = Except.error msg := by
  intro rem
  induction rem with
  | zero => intro i acts h; omega
  | succ r ih =>
    intro i acts h
    match acts with
    | [] => exact ⟨_, rfl⟩
    | a :: t =>
      have hmem : (a :: t).getD (choose i % (a :: t).length) "" ∈ a :: t :=
        getD_mem _ _ _ (Nat.mod_lt _ (by simp))
      have hlen : (((a :: t).erase ((a :: t).getD (choose i % (a :: t).length) "")).length)
          = (a :: t).length - 1 := List.length_erase_of_mem hmem
      obtain ⟨msg, hmsg⟩ :=
        ih (i + 1) ((a :: t).erase ((a :: t).getD (choose i % (a :: t).length) ""))
          (by rw [hlen]; simp at h ⊢; omega)
      refine ⟨msg, ?_⟩
      simp only [build_door_aux, List.isEmpty_cons, Bool.false_eq_true, if_false]
      rw [hmsg]

/-- C3: `ActivityBoard` construction fails with an error — and so no
board is started — whenever the surface width is not a multiple of
`doors_horiz`, the surface height is not a multiple of `doors_vert`,
or the activity pool has fewer than `doors_horiz * doors_vert`
entries. -/
theorem C3_construction_fails (choose : Nat → Nat)
    (width height dh dv : Nat) (activities : List String) (sh : Bool)
    (hbad : width % dh ≠ 0 ∨ height % dv ≠ 0 ∨ activities.length < dh * dv) :
    ∃ msg, board_init choose width height dh dv activities sh =
      Except.error msg := by
  unfold board_init
  by_cases h1 : width % dh ≠ 0
  · rw [if_pos h1]; exact ⟨_, rfl⟩
  · rw [if_neg h1]
    by_cases h2 : height % dv ≠ 0
    · rw [if_pos h2]; exact ⟨_, rfl⟩
    · rw [if_neg h2]
      rcases hbad with hb | hb | hb
      · exact absurd hb h1
      · exact absurd hb h2
      · exact build_aux_error choose sh (dh * dv) 0 activities hb

/-- Witness for C3: a 1024-wide surface does not divide into 3 columns,
so construction fails. -/
theorem C3_construction_fails_witness :
    (1024 % 3 ≠ 0 ∨ 768 % 2 ≠ 0 ∨
      (["a", "b", "c", "d", "e", "f"] : List String).length < 3 * 2) ∧
    ∃ msg, board_init (fun _ => 0) 1024 768 3 2 ["a", "b", "c", "d", "e", "f"] false =
      Except.error msg :=
  ⟨by decide,
   C3_construction_fails (fun _ => 0) 1024 768 3 2 ["a", "b", "c", "d", "e", "f"]
     false (by decide)⟩

lemma build_aux_ok (choose : Nat → Nat) (hid : Bool) :
    ∀ (rem i : Nat) (activities : List String), activities.Nodup →
      rem ≤ activities.length →
      ∃ doors, build_door_aux choose hid i rem activities = Except.ok doors ∧
        doors.length = rem ∧
        doors.map Door.index = List.range' i rem ∧
        (doors.map Door.activity).Nodup ∧
        (∀ d ∈ doors, d.activity ∈ activities) ∧
        (∀ d ∈ doors, d.is_selected = false) ∧
        (∀ j, j < rem → (doors.getD j dfltDoor).index = i + j) := by
  intro rem
  induction rem with
  | zero =>
    intro i acts _ _
    exact ⟨[], rfl, rfl, rfl, by simp, by simp, by simp, by omega⟩
  | succ r ih =>
    intro i acts hnd hle
    match acts with
    | [] => simp at hle
    | a :: t =>
      set activity := (a :: t).getD (choose i % (a :: t).length) "" with hact
      have hmem : activity ∈ a :: t := getD_mem _ _ _ (Nat.mod_lt _ (by simp))
      have herase_len : ((a :: t).erase activity).length = (a :: t).length - 1 :=
        List.length_erase_of_mem hmem
      have herase_nd : ((a :: t).erase activity).Nodup := hnd.erase activity
      obtain ⟨doors, hok, hlen, hidx, hand, hpool, hsel, hgetD⟩ :=
        ih (i + 1) ((a :: t).erase activity) herase_nd
          (by rw [herase_len]; simp at hle ⊢; omega)
      refine ⟨mkDoor i activity hid :: doors, ?_, ?_, ?_, ?_, ?_, ?_, ?_⟩
      · simp only [build_door_aux, List.isEmpty_cons, Bool.false_eq_true, if_false]
        rw [← hact, hok]
      · simp [hlen]
      · simp only [List.map_cons, hidx, mkDoor]
        exact (List.range'_succ i r 1).symm
      · refine List.nodup_cons.mpr ⟨?_, hand⟩
        intro hbad
        obtain ⟨d, hd, hda⟩ := List.mem_map.mp hbad
        exact hnd.not_mem_erase (hda ▸ hpool d hd)
      · intro d hd
        rcases List.mem_cons.mp hd with rfl | hd
        · exact hmem
        · exact List.erase_subset _ _ (hpool d hd)
      · intro d hd
        rcases List.mem_cons.mp hd with rfl | hd
        · rfl
        · exact hsel d hd
      · intro j hj
        cases j with
        | zero => rfl
        | succ j' =>
          have := hgetD j' (by omega)
          simpa [Nat.add_assoc, Nat.add_comm, Nat.add_left_comm] using this

/-- C9: for an activity pool of distinct entries with at least
`doors_horiz * doors_vert` of them, `_build_door_list` succeeds and
assigns every door a unique index `0..num_doors-1` and a unique
activity drawn without replacement from the pool. -/
theorem C9_unique_doors (choose : Nat → Nat) (dh dv : Nat)
    (activities : List String) (sh : Bool) (hnd : activities.Nodup)
    (hlen : dh * dv ≤ activities.length) :
    ∃ doors, build_door_list choose dh dv activities sh = Except.ok doors ∧
      doors.map Door.index = List.range (dh * dv) ∧
      (doors.map Door.activity).Nodup ∧
      ∀ d ∈ doors, d.activity ∈ activities := by
  obtain ⟨doors, hok, _, hidx, hand, hpool, _, _⟩ :=
    build_aux_ok choose sh (dh * dv) 0 activities hnd hlen
  exact ⟨doors, hok, by rw [hidx, List.range_eq_range'], hand, hpool⟩

/-- Witness for C9 on a 3×2 grid with a six-entry pool. -/
theorem C9_unique_doors_witness :
    ((["a", "b", "c", "d", "e", "f"] : List String).Nodup ∧
      3 * 2 ≤ (["a", "b", "c", "d", "e", "f"] : List String).length) ∧
    ∃ doors, build_door_list (fun _ => 0) 3 2 ["a", "b", "c", "d", "e", "f"] false =
        Except.ok doors ∧
      doors.map Door.index = List.range (3 * 2) ∧
      (doors.map Door.activity).Nodup ∧
      ∀ d ∈ doors, d.activity ∈ (["a", "b", "c", "d", "e", "f"] : List String) :=
  ⟨⟨by decide, by decide⟩,
   C9_unique_doors (fun _ => 0) 3 2 ["a", "b", "c", "d", "e", "f"] false
     (by decide) (by decide)⟩

/-! ## The OPEN transition -/

lemma animate_open_eq (d : Door) : animate_open d = { d with pct_open := 100 } := rfl

/-- The door-list update performed by the OPEN branch on a door that
is not yet open: run the opening animation on the selected door, then
mark it open. -/
def opened_doors (doors : List Door) (selected : Nat) : List Door :=
  (doors.set selected (animate_open (doors.getD selected dfltDoor))).set selected
    { (doors.set selected
        (animate_open (doors.getD selected dfltDoor))).getD selected dfltDoor
      with is_open := true }

lemma step_open_already (dh dv : Nat) (b : BoardState)
    (hstate : b.state = GState.SELECTING)
    (ho : (b.doors.getD b.selected dfltDoor).is_open = true) :
    step dh dv b Action.OPEN = b := by
  obtain ⟨doors, selected, state, pa⟩ := b
  simp only at hstate ho ⊢
  subst hstate
  simp only [step, selecting_step]
  rw [ho]
  simp

lemma step_open_fresh (dh dv : Nat) (b : BoardState)
    (hstate : b.state = GState.SELECTING)
    (ho : (b.doors.getD b.selected dfltDoor).is_open = false) :
    step dh dv b Action.OPEN =
      { b with doors := opened_doors b.doors b.selected,
               state := GState.IN_PROGRESS } := by
  obtain ⟨doors, selected, state, pa⟩ := b
  simp only at hstate ho ⊢
  subst hstate
  simp only [step, selecting_step, opened_doors]
  rw [ho]
  simp

/-- C7: in SELECTING, receiving Open when the selected door is already
open leaves the whole board state unchanged (no door flag changes, the
machine stays in SELECTING); when it is not open, the selected door is
marked open and the machine moves to IN_PROGRESS, all other doors
untouched. -/
theorem C7_open_branch (dh dv : Nat) (b : BoardState)
    (hstate : b.state = GState.SELECTING)
    (hsel : b.selected < b.doors.length) :
    ((b.doors.getD b.selected dfltDoor).is_open = true →
      step dh dv b Action.OPEN = b) ∧
    ((b.doors.getD b.selected dfltDoor).is_open = false →
      (step dh dv b Action.OPEN).state = GState.IN_PROGRESS ∧
      ((step dh dv b Action.OPEN).doors.getD b.selected dfltDoor).is_open = true ∧
      ∀ i, i ≠ b.selected →
        (step dh dv b Action.OPEN).doors.getD i dfltDoor =
          b.doors.getD i dfltDoor) := by
  constructor
  · intro ho
    exact step_open_already dh dv b hstate ho
  · intro ho
    rw [step_open_fresh dh dv b hstate ho]
    have hlen1 : (b.doors.set b.selected (animate_open
        (b.doors.getD b.selected dfltDoor))).length = b.doors.length :=
      List.length_set b.doors b.selected _
    refine ⟨rfl, ?_, ?_⟩
    · simp only [opened_doors]
      rw [getD_set_eq _ _ _ (by rw [hlen1]; exact hsel)]
    · intro i hi
      simp only [opened_doors]
      rw [getD_set_ne _ _ _ _ (fun h => hi h.symm),
        getD_set_ne _ _ _ _ (fun h => hi h.symm)]

/-- The concrete one-door board used to witness C7. -/
def one_door_board : BoardState :=
  { doors := [mkDoor 0 "a" false], selected := 0,
    state := GState.SELECTING, play_again := none }

/-- Witness for C7: a one-door board in SELECTING whose door is not
yet open. -/
theorem C7_open_branch_witness :
    (one_door_board.state = GState.SELECTING ∧
      one_door_board.selected < one_door_board.doors.length) ∧
    (((one_door_board.doors.getD one_door_board.selected dfltDoor).is_open = true →
      step 1 1 one_door_board Action.OPEN = one_door_board) ∧
    ((one_door_board.doors.getD one_door_board.selected dfltDoor).is_open = false →
      (step 1 1 one_door_board Action.OPEN).state = GState.IN_PROGRESS ∧
      ((step 1 1 one_door_board Action.OPEN).doors.getD one_door_board.selected
          dfltDoor).is_open = true ∧
      ∀ i, i ≠ one_door_board.selected →
        (step 1 1 one_door_board Action.OPEN).doors.getD i dfltDoor =
          one_door_board.doors.getD i dfltDoor)) :=
  ⟨⟨rfl, by decide⟩, C7_open_branch 1 1 one_door_board rfl (by decide)⟩

/-! ## RESTART and QUIT from SELECTING -/

lemma run_actions_game_over (dh dv : Nat) (b : BoardState)
    (h : b.state = GState.GAME_OVER) :
    ∀ l : List Action, run_actions dh dv b l = b := by
  intro l
  cases l with
  | nil => rfl
  | cons a t => simp [run_actions, h]

lemma run_trace_game_over (dh dv : Nat) (b : BoardState)
    (h : b.state = GState.GAME_OVER) :
    ∀ l : List Action, run_trace dh dv b l = [b] := by
  intro l
  cases l with
  | nil => rfl
  | cons a t => simp [run_trace, h]

lemma run_actions_cons (dh dv : Nat) (b : BoardState) (a : Action)
    (rest : List Action) (h : b.state ≠ GState.GAME_OVER) :
    run_actions dh dv b (a :: rest) =
      run_actions dh dv (step dh dv b a) rest := by
  simp [run_actions, h]

lemma run_trace_cons (dh dv : Nat) (b : BoardState) (a : Action)
    (rest : List Action) (h : b.state ≠ GState.GAME_OVER) :
    run_trace dh dv b (a :: rest) =
      b :: run_trace dh dv (step dh dv b a) rest := by
  simp [run_trace, h]

lemma step_restart_selecting (dh dv : Nat) (b : BoardState)
    (hstate : b.state = GState.SELECTING) :
    step dh dv b Action.RESTART =
      { b with state := GState.GAME_OVER, play_again := some true } := by
  obtain ⟨doors, selected, state, pa⟩ := b
  simp only at hstate
  subst hstate
  rfl

lemma step_quit_selecting (dh dv : Nat) (b : BoardState)
    (hstate : b.state = GState.SELECTING) :
    step dh dv b Action.QUIT =
      { b with state := GState.GAME_OVER, play_again := some false } := by
  obtain ⟨doors, selected, state, pa⟩ := b
  simp only at hstate
  subst hstate
  rfl

/-- C8: from SELECTING, Restart moves directly to the terminal state
GAME_OVER with `play_again = true` — the run never passes through
IN_PROGRESS or ALL_REVEALED on the way — and the run loop then returns
true; Quit instead makes the run loop return false. -/
theorem C8_restart_quit (dh dv : Nat) (b : BoardState) (rest : List Action)
    (hstate : b.state = GState.SELECTING) :
    (step dh dv b Action.RESTART).state = GState.GAME_OVER ∧
    (step dh dv b Action.RESTART).play_again = some true ∧
    (run_actions dh dv b (Action.RESTART :: rest)).play_again = some true ∧
    (∀ s ∈ run_trace dh dv b (Action.RESTART :: rest),
      s.state ≠ GState.IN_PROGRESS ∧ s.state ≠ GState.ALL_REVEALED) ∧
    (run_actions dh dv b (Action.QUIT :: rest)).play_again = some false := by
  have hne : b.state ≠ GState.GAME_OVER := by rw [hstate]; simp
  have hR := step_restart_selecting dh dv b hstate
  have hQ := step_quit_selecting dh dv b hstate
  refine ⟨by rw [hR], by rw [hR], ?_, ?_, ?_⟩
  · rw [run_actions_cons dh dv b _ rest hne, hR,
      run_actions_game_over dh dv _ rfl rest]
  · intro s hs
    rw [run_trace_cons dh dv b _ rest hne, hR,
      run_trace_game_over dh dv _ rfl rest] at hs
    simp only [List.mem_cons, List.mem_singleton, List.not_mem_nil] at hs
    rcases hs with rfl | rfl | hfalse
    · rw [hstate]
      exact ⟨by simp, by simp⟩
    · exact ⟨by simp, by simp⟩
    · exact absurd hfalse (by simp)
  · rw [run_actions_cons dh dv b _ rest hne, hQ,
      run_actions_game_over dh dv _ rfl rest]

/-- Witness for C8 on the concrete one-door board. -/
theorem C8_restart_quit_witness :
    one_door_board.state = GState.SELECTING ∧
    ((step 1 1 one_door_board Action.RESTART).state = GState.GAME_OVER ∧
    (step 1 1 one_door_board Action.RESTART).play_again = some true ∧
    (run_actions 1 1 one_door_board [Action.RESTART]).play_again = some true ∧
    (∀ s ∈ run_trace 1 1 one_door_board [Action.RESTART],
      s.state ≠ GState.IN_PROGRESS ∧ s.state ≠ GState.ALL_REVEALED) ∧
    (run_actions 1 1 one_door_board [Action.QUIT]).play_again = some false) :=
  ⟨rfl, C8_restart_quit 1 1 one_door_board [] rfl⟩

/-! ## The selection invariant -/

/-- The inductive invariant of the run loop: the door list has one
door per grid cell, the tracked selection index is in range, every
door records its own position as `index`, and a door's `is_selected`
flag is set exactly at the tracked selection index. -/
def sel_inv (dh dv : Nat) (b : BoardState) : Prop :=
  b.doors.length = dh * dv ∧
  b.selected < dh * dv ∧
  (∀ i, i < dh * dv → (b.doors.getD i dfltDoor).index = i) ∧
  (∀ i, i < dh * dv →
    ((b.doors.getD i dfltDoor).is_selected = true ↔ i = b.selected))

lemma clear1_fields (d : Door) :
    (clear1 d).index = d.index ∧ (clear1 d).is_selected = d.is_selected := by
  by_cases h : d.is_updated <;> simp [clear1, h]

lemma reveal_door_fields (d : Door) :
    (reveal_door d).index = d.index ∧
    (reveal_door d).is_selected = d.is_selected := by
  by_cases h : d.is_open <;> simp [reveal_door, h]

lemma draw_updated_getD (l : List Door) (i : Nat) (h : i < l.length) :
    ((draw_updated_doors l).getD i dfltDoor).index = (l.getD i dfltDoor).index ∧
    ((draw_updated_doors l).getD i dfltDoor).is_selected =
      (l.getD i dfltDoor).is_selected := by
  rw [draw_updated_doors_map, getD_map_door _ _ _ h]
  exact clear1_fields _

lemma draw_all_getD (l : List Door) (i : Nat) (h : i < l.length) :
    ((draw_all_doors l).getD i dfltDoor).index = (l.getD i dfltDoor).index ∧
    ((draw_all_doors l).getD i dfltDoor).is_selected =
      (l.getD i dfltDoor).is_selected := by
  rw [show draw_all_doors l = l.map (fun d => { d with is_updated := false })
    from rfl]
  rw [getD_map_door _ _ _ h]
  exact ⟨rfl, rfl⟩

lemma countP_selected_one : ∀ (l : List Door) (k : Nat), k < l.length →
    (∀ i, i < l.length → ((l.getD i dfltDoor).is_selected = true ↔ i = k)) →
    l.countP (fun d => d.is_selected) = 1 := by
  intro l
  induction l with
  | nil => intro k hk _; simp at hk
  | cons d t ih =>
    intro k hk hflag
    rw [List.countP_cons]
    cases k with
    | zero =>
      have hd : d.is_selected = true := by
        have := (hflag 0 (by simp)).mpr rfl
        simpa using this
      have ht : t.countP (fun x => x.is_selected) = 0 := by
        rw [List.countP_eq_zero]
        intro x hx
        obtain ⟨j, hj, rfl⟩ := List.mem_iff_getElem.mp hx
        have hflag' := hflag (j + 1) (by simpa using Nat.succ_lt_succ hj)
        rw [List.getD_cons_succ, List.getD_eq_getElem t dfltDoor hj] at hflag'
        simp only [Nat.succ_ne_zero, iff_false] at hflag'
        simpa using hflag'
      simp [hd, ht]
    | succ k' =>
      have hd : d.is_selected = false := by
        have := hflag 0 (by simp)
        rw [List.getD_cons_zero] at this
        simpa using this
      have hlen' : k' < t.length := by simpa using hk
      have ht := ih k' hlen' (fun i hi => by
        have h2 := hflag (i + 1) (by simpa using Nat.succ_lt_succ hi)
        rw [List.getD_cons_succ] at h2
        simpa using h2)
      simp [hd, ht]

lemma build_aux_ok_inv (choose : Nat → Nat) (hid : Bool) :
    ∀ (rem i : Nat) (acts : List String) (doors : List Door),
      build_door_aux choose hid i rem acts = Except.ok doors →
      doors.length = rem ∧
      (∀ j, j < rem → (doors.getD j dfltDoor).index = i + j) ∧
      (∀ d ∈ doors, d.is_selected = false) := by
  intro rem
  induction rem with
  | zero =>
    intro i acts doors h
    simp only [build_door_aux, Except.ok.injEq] at h
    subst h
    exact ⟨rfl, by omega, by simp⟩
  | succ r ih =>
    intro i acts doors h
    simp only [build_door_aux] at h
    split at h
    · exact absurd h (by simp)
    · split at h
      case _ ds hds =>
        simp only [Except.ok.injEq] at h
        subst h
        obtain ⟨hlen, hidx, hsel⟩ := ih (i + 1) _ ds hds
        refine ⟨by simp [hlen], ?_, ?_⟩
        · intro j hj
          cases j with
          | zero => rfl
          | succ j' =>
            rw [List.getD_cons_succ]
            have := hidx j' (by omega)
            omega
        · intro d hd
          rcases List.mem_cons.mp hd with rfl | hd
          · rfl
          · exact hsel d hd
      case _ e he => exact absurd h (by simp)

/-- The door-list update performed by the directional branch when the
new index differs: clear the old selection (marking it dirty), set the
new one (marking it dirty), redraw the dirty doors. -/
def moved_doors (doors : List Door) (selected n : Nat) : List Door :=
  draw_updated_doors ((doors.set selected
    { doors.getD selected dfltDoor with is_selected := false, is_updated := true }).set n
    { (doors.set selected
        { doors.getD selected dfltDoor with is_selected := false, is_updated := true }).getD
        n dfltDoor
      with is_selected := true, is_updated := true })

lemma step_reveal_selecting (dh dv : Nat) (b : BoardState)
    (hstate : b.state = GState.SELECTING) :
    step dh dv b Action.REVEAL =
      { b with doors := animate_open_all b.doors,
               state := GState.ALL_REVEALED } := by
  obtain ⟨doors, selected, state, pa⟩ := b
  simp only at hstate
  subst hstate
  rfl

lemma step_dir_eq (dh dv : Nat) (b : BoardState)
    (hstate : b.state = GState.SELECTING) (a : Action)
    (ha : a = Action.UP ∨ a = Action.DOWN ∨ a = Action.LEFT ∨ a = Action.RIGHT) :
    step dh dv b a =
      if (get_new_selection dh dv (b.doors.getD b.selected dfltDoor).index a).toNat ≠
          (b.doors.getD b.selected dfltDoor).index then
        { b with
          doors := moved_doors b.doors b.selected
            ((get_new_selection dh dv (b.doors.getD b.selected dfltDoor).index a).toNat),
          selected :=
            (get_new_selection dh dv (b.doors.getD b.selected dfltDoor).index a).toNat }
      else b := by
  obtain ⟨doors, selected, state, pa⟩ := b
  simp only at hstate ⊢
  subst hstate
  rcases ha with rfl | rfl | rfl | rfl <;> rfl

lemma moved_doors_length (doors : List Door) (selected n : Nat) :
    (moved_doors doors selected n).length = doors.length := by
  simp [moved_doors, draw_updated_doors]

lemma moved_doors_getD_cases (doors : List Door) (selected n i : Nat)
    (hi : i < doors.length) (hn : n < doors.length) (hne : n ≠ selected) :
    ((moved_doors doors selected n).getD i dfltDoor).index =
      (doors.getD i dfltDoor).index ∧
    ((moved_doors doors selected n).getD i dfltDoor).is_selected =
      (if i = n then true else if i = selected then false
       else (doors.getD i dfltDoor).is_selected) := by
  unfold moved_doors
  set l1 := doors.set selected
    { doors.getD selected dfltDoor with is_selected := false, is_updated := true } with hl1
  set l2 := l1.set n
    { l1.getD n dfltDoor with is_selected := true, is_updated := true } with hl2
  have hlen1 : l1.length = doors.length := by
    rw [hl1, List.length_set]
  have hlen2 : l2.length = doors.length := by
    rw [hl2, List.length_set, hlen1]
  obtain ⟨hidxEq, hselEq⟩ := draw_updated_getD l2 i (by rw [hlen2]; exact hi)
  rw [hidxEq, hselEq]
  by_cases h1 : i = n
  · subst h1
    rw [hl2, getD_set_eq _ _ _ (by rw [hlen1]; exact hn)]
    constructor
    · show (l1.getD i dfltDoor).index = _
      rw [hl1, getD_set_ne _ _ _ _ (by omega)]
    · simp
  · rw [hl2, getD_set_ne _ _ _ _ (by omega)]
    by_cases h2 : i = selected
    · subst h2
      rw [hl1, getD_set_eq _ _ _ hi]
      exact ⟨rfl, by simp [h1]⟩
    · rw [hl1, getD_set_ne _ _ _ _ (by omega)]
      exact ⟨rfl, by simp [h1, h2]⟩

lemma opened_doors_getD_fields (doors : List Door) (selected i : Nat)
    (hi : i < doors.length) (hsel : selected < doors.length) :
    ((opened_doors doors selected).getD i dfltDoor).index =
      (doors.getD i dfltDoor).index ∧
    ((opened_doors doors selected).getD i dfltDoor).is_selected =
      (doors.getD i dfltDoor).is_selected := by
  unfold opened_doors
  by_cases hieq : i = selected
  · subst hieq
    rw [getD_set_eq _ _ _ (by simp only [List.length_set]; exact hsel)]
    rw [getD_set_eq _ _ _ hsel]
    simp [animate_open_eq]
  · rw [getD_set_ne _ _ _ _ (fun h => hieq h.symm),
      getD_set_ne _ _ _ _ (fun h => hieq h.symm)]
    exact ⟨rfl, rfl⟩

lemma opened_doors_length (doors : List Door) (selected : Nat) :
    (opened_doors doors selected).length = doors.length := by
  simp [opened_doors]

lemma sel_inv_dir (dh dv : Nat) (hdh : 1 ≤ dh) (hdv : 1 ≤ dv)
    (doors : List Door) (selected : Nat) (pa : Option Bool) (a : Action)
    (ha : a = Action.UP ∨ a = Action.DOWN ∨ a = Action.LEFT ∨ a = Action.RIGHT)
    (hlen : doors.length = dh * dv) (hsel : selected < dh * dv)
    (hidx : ∀ i, i < dh * dv → (doors.getD i dfltDoor).index = i)
    (hflag : ∀ i, i < dh * dv →
      ((doors.getD i dfltDoor).is_selected = true ↔ i = selected)) :
    sel_inv dh dv (step dh dv
      { doors := doors, selected := selected, state := GState.SELECTING,
        play_again := pa } a) := by
  have hidxsel : (doors.getD selected dfltDoor).index = selected := hidx selected hsel
  obtain ⟨n, hn, hnlt⟩ := get_new_selection_bounded dh dv selected a hdh hdv hsel
  have htn : (get_new_selection dh dv
      (doors.getD selected dfltDoor).index a).toNat = n := by
    rw [hidxsel, hn]
    rfl
  rw [step_dir_eq dh dv _ rfl a ha]
  dsimp only
  rw [htn, hidxsel]
  by_cases hmove : n = selected
  · rw [if_neg (by simp [hmove])]
    exact ⟨hlen, hsel, hidx, hflag⟩
  · rw [if_pos hmove]
    refine ⟨?_, ?_, ?_, ?_⟩
    · dsimp only
      rw [moved_doors_length]
      exact hlen
    · exact hnlt
    · intro i hi
      dsimp only
      rw [(moved_doors_getD_cases doors selected n i (by omega) (by omega) hmove).1]
      exact hidx i hi
    · intro i hi
      dsimp only
      rw [(moved_doors_getD_cases doors selected n i (by omega) (by omega) hmove).2]
      by_cases h1 : i = n
      · simp [h1]
      · by_cases h2 : i = selected
        · subst h2
          simp [h1]
        · rw [if_neg h1, if_neg h2]
          rw [hflag i hi]
          constructor
          · intro h; exact absurd h h2
          · intro h; exact absurd h h1

lemma sel_inv_step (dh dv : Nat) (hdh : 1 ≤ dh) (hdv : 1 ≤ dv)
    (b : BoardState) (a : Action) (h : sel_inv dh dv b) :
    sel_inv dh dv (step dh dv b a) := by
  obtain ⟨hlen, hsel, hidx, hflag⟩ := h
  obtain ⟨doors, selected, state, pa⟩ := b
  simp only at hlen hsel hidx hflag
  cases state with
  | START => exact ⟨hlen, hsel, hidx, hflag⟩
  | GAME_OVER => exact ⟨hlen, hsel, hidx, hflag⟩
  | IN_PROGRESS =>
    cases a with
    | RETURN =>
      refine ⟨?_, hsel, ?_, ?_⟩
      · show (draw_all_doors doors).length = dh * dv
        simp [draw_all_doors, hlen]
      · intro i hi
        show ((draw_all_doors doors).getD i dfltDoor).index = i
        rw [(draw_all_getD doors i (by omega)).1]
        exact hidx i hi
      · intro i hi
        show ((draw_all_doors doors).getD i dfltDoor).is_selected = true ↔
          i = selected
        rw [(draw_all_getD doors i (by omega)).2]
        exact hflag i hi
    | UP => exact ⟨hlen, hsel, hidx, hflag⟩
    | DOWN => exact ⟨hlen, hsel, hidx, hflag⟩
    | LEFT => exact ⟨hlen, hsel, hidx, hflag⟩
    | RIGHT => exact ⟨hlen, hsel, hidx, hflag⟩
    | OPEN => exact ⟨hlen, hsel, hidx, hflag⟩
    | REVEAL => exact ⟨hlen, hsel, hidx, hflag⟩
    | RESTART => exact ⟨hlen, hsel, hidx, hflag⟩
    | QUIT => exact ⟨hlen, hsel, hidx, hflag⟩
  | ALL_REVEALED => cases a <;> exact ⟨hlen, hsel, hidx, hflag⟩
  | SELECTING =>
    cases a with
    | OPEN =>
      by_cases ho : (doors.getD selected dfltDoor).is_open = true
      · rw [step_open_already dh dv _ rfl ho]
        exact ⟨hlen, hsel, hidx, hflag⟩
      · have ho' : (doors.getD selected dfltDoor).is_open = false := by
          simpa using ho
        rw [step_open_fresh dh dv _ rfl ho']
        refine ⟨?_, hsel, ?_, ?_⟩
        · dsimp only
          rw [opened_doors_length]
          exact hlen
        · intro i hi
          dsimp only
          rw [(opened_doors_getD_fields doors selected i (by omega) (by omega)).1]
          exact hidx i hi
        · intro i hi
          dsimp only
          rw [(opened_doors_getD_fields doors selected i (by omega) (by omega)).2]
          exact hflag i hi
    | REVEAL =>
      rw [step_reveal_selecting dh dv _ rfl]
      refine ⟨?_, hsel, ?_, ?_⟩
      · dsimp only
        rw [animate_open_all_eq]
        simp [hlen]
      · intro i hi
        dsimp only
        rw [animate_open_all_eq, getD_map_door _ _ _ (by omega),
          (reveal_door_fields _).1]
        exact hidx i hi
      · intro i hi
        dsimp only
        rw [animate_open_all_eq, getD_map_door _ _ _ (by omega),
          (reveal_door_fields _).2]
        exact hflag i hi
    | RESTART => exact ⟨hlen, hsel, hidx, hflag⟩
    | QUIT => exact ⟨hlen, hsel, hidx, hflag⟩
    | RETURN => exact ⟨hlen, hsel, hidx, hflag⟩
    | UP =>
      exact sel_inv_dir dh dv hdh hdv doors selected pa Action.UP
        (Or.inl rfl) hlen hsel hidx hflag
    | DOWN =>
      exact sel_inv_dir dh dv hdh hdv doors selected pa Action.DOWN
        (Or.inr (Or.inl rfl)) hlen hsel hidx hflag
    | LEFT =>
      exact sel_inv_dir dh dv hdh hdv doors selected pa Action.LEFT
        (Or.inr (Or.inr (Or.inl rfl))) hlen hsel hidx hflag
    | RIGHT =>
      exact sel_inv_dir dh dv hdh hdv doors selected pa Action.RIGHT
        (Or.inr (Or.inr (Or.inr rfl))) hlen hsel hidx hflag

/-- The board-drawing phase of the START branch: intro animation when
starting hidden (net effect: all doors un-hidden, flags clean), plain
full redraw otherwise. -/
def start_doors (sh : Bool) (doors : List Door) : List Door :=
  if sh then
    draw_updated_doors (draw_all_doors doors |>.map
      (fun d => { d with is_hidden := false, is_updated := true }))
  else
    draw_all_doors doors

/-- The selection phase of the START branch: select door 0, mark it
dirty, redraw the dirty doors. -/
def select0 (doors : List Door) : List Door :=
  draw_updated_doors (doors.set 0
    ({ doors.getD 0 dfltDoor with is_selected := true, is_updated := true }))

lemma start_step_eq (sh : Bool) (b : BoardState) :
    start_step sh b =
      { b with doors := select0 (start_doors sh b.doors), selected := 0,
               state := GState.SELECTING } := rfl

lemma start_doors_length (sh : Bool) (doors : List Door) :
    (start_doors sh doors).length = doors.length := by
  cases sh <;> simp [start_doors, draw_updated_doors, draw_all_doors]

lemma start_doors_fields (sh : Bool) (doors : List Door) (i : Nat)
    (hi : i < doors.length) :
    ((start_doors sh doors).getD i dfltDoor).index =
      (doors.getD i dfltDoor).index ∧
    ((start_doors sh doors).getD i dfltDoor).is_selected =
      (doors.getD i dfltDoor).is_selected := by
  cases sh with
  | false =>
    show ((draw_all_doors doors).getD i dfltDoor).index = _ ∧
      ((draw_all_doors doors).getD i dfltDoor).is_selected = _
    exact draw_all_getD doors i hi
  | true =>
    rw [show start_doors true doors = draw_updated_doors
      ((draw_all_doors doors).map
        (fun d => { d with is_hidden := false, is_updated := true })) from rfl]
    have hml : i < ((draw_all_doors doors).map
        (fun d => { d with is_hidden := false, is_updated := true })).length := by
      simp [draw_all_doors]
      exact hi
    obtain ⟨h1, h2⟩ := draw_updated_getD ((draw_all_doors doors).map
      (fun d => { d with is_hidden := false, is_updated := true })) i hml
    rw [h1, h2, getD_map_door _ _ _ (by simp [draw_all_doors]; exact hi)]
    exact draw_all_getD doors i hi

lemma select0_props (dh dv : Nat) (h0 : 0 < dh * dv) (doors1 : List Door)
    (hlen : doors1.length = dh * dv)
    (hidx : ∀ j, j < dh * dv → (doors1.getD j dfltDoor).index = j)
    (hunsel : ∀ j, j < dh * dv → (doors1.getD j dfltDoor).is_selected = false) :
    (select0 doors1).length = dh * dv ∧
    (∀ j, j < dh * dv → ((select0 doors1).getD j dfltDoor).index = j) ∧
    (∀ j, j < dh * dv →
      (((select0 doors1).getD j dfltDoor).is_selected = true ↔ j = 0)) := by
  have h0l : 0 < doors1.length := by omega
  have hsetlen : (doors1.set 0
      ({ doors1.getD 0 dfltDoor with is_selected := true, is_updated := true })).length
        = doors1.length :=
    List.length_set doors1 0 _
  refine ⟨by simp [select0, draw_updated_doors, hlen], ?_, ?_⟩
  · intro j hj
    have hjl : j < doors1.length := by omega
    obtain ⟨h1, _⟩ := draw_updated_getD (doors1.set 0
      ({ doors1.getD 0 dfltDoor with is_selected := true, is_updated := true })) j
      (by rw [hsetlen]; exact hjl)
    unfold select0
    rw [h1]
    by_cases hj0 : j = 0
    · subst hj0
      rw [getD_set_eq _ _ _ h0l]
      exact hidx 0 h0
    · rw [getD_set_ne _ _ _ _ (by omega)]
      exact hidx j hj
  · intro j hj
    have hjl : j < doors1.length := by omega
    obtain ⟨_, h2⟩ := draw_updated_getD (doors1.set 0
      ({ doors1.getD 0 dfltDoor with is_selected := true, is_updated := true })) j
      (by rw [hsetlen]; exact hjl)
    unfold select0
    rw [h2]
    by_cases hj0 : j = 0
    · subst hj0
      rw [getD_set_eq _ _ _ h0l]
      simp
    · rw [getD_set_ne _ _ _ _ (by omega)]
      rw [hunsel j hj]
      simp [hj0]

lemma start_step_inv (dh dv : Nat) (hdh : 1 ≤ dh) (hdv : 1 ≤ dv)
    (sh : Bool) (b : BoardState)
    (hlen : b.doors.length = dh * dv)
    (hidx : ∀ j, j < dh * dv → (b.doors.getD j dfltDoor).index = j)
    (hunsel : ∀ d ∈ b.doors, d.is_selected = false) :
    sel_inv dh dv (start_step sh b) := by
  have h0 : 0 < dh * dv := Nat.mul_pos (by omega) (by omega)
  have hlen1 : (start_doors sh b.doors).length = dh * dv := by
    rw [start_doors_length]
    exact hlen
  have hidx1 : ∀ j, j < dh * dv →
      ((start_doors sh b.doors).getD j dfltDoor).index = j := by
    intro j hj
    rw [(start_doors_fields sh b.doors j (by omega)).1]
    exact hidx j hj
  have hunsel1 : ∀ j, j < dh * dv →
      ((start_doors sh b.doors).getD j dfltDoor).is_selected = false := by
    intro j hj
    rw [(start_doors_fields sh b.doors j (by omega)).2]
    exact hunsel _ (getD_mem b.doors j dfltDoor (by omega))
  obtain ⟨hL, hI, hS⟩ := select0_props dh dv h0 (start_doors sh b.doors)
    hlen1 hidx1 hunsel1
  rw [start_step_eq]
  exact ⟨hL, h0, hI, hS⟩

lemma run_trace_inv (dh dv : Nat) (hdh : 1 ≤ dh) (hdv : 1 ≤ dv) :
    ∀ (l : List Action) (b : BoardState), sel_inv dh dv b →
      ∀ s ∈ run_trace dh dv b l, sel_inv dh dv s := by
  intro l
  induction l with
  | nil =>
    intro b hb s hs
    simp only [run_trace, List.mem_singleton] at hs
    subst hs
    exact hb
  | cons a t ih =>
    intro b hb s hs
    by_cases hgo : b.state = GState.GAME_OVER
    · rw [run_trace_game_over dh dv b hgo] at hs
      simp only [List.mem_singleton] at hs
      subst hs
      exact hb
    · rw [run_trace_cons dh dv b a t hgo] at hs
      rcases List.mem_cons.mp hs with rfl | hs
      · exact hb
      · exact ih (step dh dv b a) (sel_inv_step dh dv hdh hdv b a hb) s hs

/-- The state the run loop starts from: the freshly built door list,
selection slot 0, machine state START, `play_again` unset. -/
def initial_board (doors : List Door) : BoardState :=
  { doors := doors, selected := 0, state := GState.START, play_again := none }

/-- C2: along every run of the loop on a board built by
`_build_door_list` — door 0 selected by the START branch, then any
stream of actions — every state whose machine state is SELECTING,
IN_PROGRESS or ALL_REVEALED has exactly one door with
`is_selected = true`. -/
theorem C2_exactly_one_selected (dh dv : Nat) (hdh : 1 ≤ dh) (hdv : 1 ≤ dv)
    (choose : Nat → Nat) (activities : List String) (sh : Bool)
    (doors0 : List Door)
    (hbuild : build_door_list choose dh dv activities sh = Except.ok doors0)
    (actions : List Action) :
    ∀ b ∈ run_trace dh dv (start_step sh (initial_board doors0)) actions,
      (b.state = GState.SELECTING ∨ b.state = GState.IN_PROGRESS ∨
        b.state = GState.ALL_REVEALED) →
      b.doors.countP (fun d => d.is_selected) = 1 := by
  intro b hb _
  obtain ⟨hlen0, hidx0, hunsel0⟩ :=
    build_aux_ok_inv choose sh (dh * dv) 0 activities doors0 hbuild
  have hstart := start_step_inv dh dv hdh hdv sh (initial_board doors0)
    hlen0 (fun j hj => by simpa using hidx0 j (by omega)) hunsel0
  obtain ⟨hlen, hsel, _, hflag⟩ := run_trace_inv dh dv hdh hdv actions _ hstart b hb
  exact countP_selected_one b.doors b.selected (by omega)
    (fun i hi => hflag i (by omega))

/-- Witness for C2: the 1×1 board built from a one-activity pool,
observed right after START. -/
theorem C2_exactly_one_selected_witness :
    (1 ≤ 1 ∧ build_door_list (fun _ => 0) 1 1 ["a"] false =
      Except.ok [mkDoor 0 "a" false]) ∧
    (start_step false (initial_board [mkDoor 0 "a" false])).doors.countP
        (fun d => d.is_selected) = 1 :=
  ⟨⟨by decide, rfl⟩,
   C2_exactly_one_selected 1 1 (by decide) (by decide) (fun _ => 0) ["a"] false
     [mkDoor 0 "a" false] rfl []
     (start_step false (initial_board [mkDoor 0 "a" false]))
     (by simp [run_trace]) (Or.inl rfl)⟩

end ActivityBoard
